import Mathlib

/-!
Shallow embedding of the task parser and filter evaluator of the
obsidian-tasks-mcp repository (file `TaskParser.ts`): the line-level task
recognizer `parseTaskLine`, the clause evaluator `applyFilter`, and the
query evaluator `parseQuery` / `queryTasks`, together with theorems about
the claims C1..C10.

Modelling conventions:
* JS strings are modelled as `List Char` (`Str`).  The source regexes either
  carry the `u` flag or only match sequences of whole code points, so
  code-point-level modelling coincides with the engine's code-unit level
  behaviour on all inputs representable as Unicode text.
* `String.prototype.toLowerCase` is modelled by `Char.toLower` (ASCII case
  mapping); every clause keyword the evaluator compares against is ASCII.
* The ambient clock read `moment().format('YYYY-MM-DD')` is passed in as an
  explicit `today : Str` parameter.
* Recursions that are not structural in the source (`split`, the clause
  evaluator) are defined with an explicit fuel argument so that all
  definitions reduce inside the kernel; the fuel is initialised to (one more
  than) the string length, which is an upper bound on the recursion depth
  because every recursive call receives a strictly shorter string.
-/

namespace ObsidianTasks

/-- Strings at the level of Unicode code points. -/
abbrev Str := List Char

/-- Embed a Lean string literal as a `Str`. -/
def lit (s : String) : Str := s.data

/-- The JS whitespace class: the characters matched by `\s` in a JS regex,
which is also the set stripped by `String.prototype.trim`. -/
def jsIsSpace (c : Char) : Bool :=
  c == ' ' || c == '\t' || c == '\n' || c == '\r' || c == '\x0B' || c == '\x0C' ||
  c == '\u00A0' || c == '\u1680' ||
  (decide ('\u2000' ≤ c) && decide (c ≤ '\u200A')) ||
  c == '\u2028' || c == '\u2029' || c == '\u202F' || c == '\u205F' ||
  c == '\u3000' || c == '\uFEFF'

/-- JS line terminators: the characters `.` does not match in a regex. -/
def isLineTerm (c : Char) : Bool :=
  c == '\n' || c == '\r' || c == '\u2028' || c == '\u2029'

/-- Model of `String.prototype.toLowerCase` (ASCII case mapping). -/
def toLowerCase (s : Str) : Str := s.map Char.toLower

/-- Model of `String.prototype.trim`: strip leading and trailing JS
whitespace. -/
def trim (s : Str) : Str :=
  ((s.dropWhile jsIsSpace).reverse.dropWhile jsIsSpace).reverse

/-- Model of `String.prototype.includes`: substring containment. -/
def containsSub : Str → Str → Bool
  | [], sub => sub.isEmpty
  | c :: rest, sub => sub.isPrefixOf (c :: rest) || containsSub rest sub

/-- Fuelled worker for `String.prototype.split` with a non-empty separator.
The fuel bounds the number of scanning steps; `splitOnSep` passes the string
length, which suffices because each step consumes at least one character. -/
def splitF (sep : Str) : Nat → Str → List Str
  | _, [] => [[]]
  | 0, s => [s]
  | fuel + 1, c :: rest =>
    if !sep.isEmpty && sep.isPrefixOf (c :: rest) then
      [] :: splitF sep fuel (List.drop (sep.length - 1) rest)
    else
      match splitF sep fuel rest with
      | [] => [[c]]
      | p :: ps => (c :: p) :: ps

/-- Model of `s.split(sep)` for a non-empty separator `sep`. -/
def splitOnSep (sep s : Str) : List Str := splitF sep s.length s

/-- Model of the JS `<` comparison on strings (lexicographic). -/
def ltStr : Str → Str → Bool
  | [], [] => false
  | [], _ :: _ => true
  | _ :: _, [] => false
  | a :: s, b :: t => decide (a < b) || (a == b && ltStr s t)

/-- Model of `tag.replace(/^#/, '')`: drop one leading `#` if present. -/
def stripHash : Str → Str
  | '#' :: r => r
  | s => s

/-- Decimal digit test, for the `[0-9]` and `\d` regex classes. -/
def isDigitCh (c : Char) : Bool := '0' ≤ c && c ≤ '9'

/-- Task status, the five values of the `status` union type of `Task`. -/
inductive Status where
  | complete
  | incomplete
  | cancelled
  | in_progress
  | non_task
deriving DecidableEq, BEq

/-- The `Task` interface of `TaskParser.ts`.  `statusSymbol` is a `Char`
because the `u`-flagged capture `(.)` always captures exactly one code
point; `lineNumber` is a `Nat`; optional fields are `Option`s. -/
structure Task where
  id : Str
  description : Str
  status : Status
  statusSymbol : Char
  filePath : Str
  lineNumber : Nat
  tags : List Str
  dueDate : Option Str
  scheduledDate : Option Str
  createdDate : Option Str
  startDate : Option Str
  priority : Option Str
  recurrence : Option Str
  originalMarkdown : Str
deriving DecidableEq

/-- The four capture groups of `TaskRegex.taskRegex`
`^([\s\t>]*)([-*+]|[0-9]+[.)]) +\[(.)\] *(.*)` (with the `u` flag). -/
structure RegexMatch where
  indentation : Str
  listMarker : Str
  statusChar : Char
  afterCheckbox : Str
deriving DecidableEq

/-- The indentation class `[\s\t>]`. -/
def isIndentChar (c : Char) : Bool := jsIsSpace c || c == '>'

/-- The list-marker alternation `([-*+]|[0-9]+[.)])`: a bullet, or a maximal
digit run followed by `.` or `)`.  Returns the marker and the rest. -/
def matchListMarker : Str → Option (Str × Str)
  | [] => none
  | c :: rest =>
    if c == '-' || c == '*' || c == '+' then some ([c], rest)
    else
      let ds := (c :: rest).takeWhile isDigitCh
      let r2 := (c :: rest).dropWhile isDigitCh
      if ds.isEmpty then none
      else
        match r2 with
        | p :: r3 => if p == '.' || p == ')' then some (ds ++ [p], r3) else none
        | [] => none

/-- Model of `line.match(TaskRegex.taskRegex)`.  The regex is anchored at
the start; each quantified piece is forced (no character can belong to two
adjacent pieces), so a deterministic longest-prefix scan is faithful to the
backtracking engine.  `(.)` and `(.*)` do not match line terminators. -/
def matchTaskRegex (line : Str) : Option RegexMatch :=
  let ind := line.takeWhile isIndentChar
  let r1 := line.dropWhile isIndentChar
  match matchListMarker r1 with
  | none => none
  | some (marker, r2) =>
    let sps := r2.takeWhile (fun c => c == ' ')
    let r3 := r2.dropWhile (fun c => c == ' ')
    if sps.isEmpty then none
    else
      match r3 with
      | '[' :: sc :: ']' :: r4 =>
        if isLineTerm sc then none
        else
          let r5 := r4.dropWhile (fun c => c == ' ')
          some ⟨ind, marker, sc, r5.takeWhile (fun c => !isLineTerm c)⟩
      | _ => none

/-- The hashtag exclusion class of `TaskRegex.hashTags`: the characters a
tag body may not contain, `[^ !@#$%^&*(),.?":{}|<>]` negated. -/
def isExcludedTagChar (c : Char) : Bool :=
  c == ' ' || c == '!' || c == '@' || c == '#' || c == '$' || c == '%' ||
  c == '^' || c == '&' || c == '*' || c == '(' || c == ')' || c == ',' ||
  c == '.' || c == '?' || c == '"' || c == ':' || c == '\x7b' || c == '\x7d' ||
  c == '|' || c == '<' || c == '>'

/-- Try to match `#` followed by a non-empty run of non-excluded characters
at the start of `s`; on success return the matched text and the rest. -/
def tagBody : Str → Option (Str × Str)
  | '#' :: rest =>
    let run := rest.takeWhile (fun c => !isExcludedTagChar c)
    if run.isEmpty then none
    else some ('#' :: run, rest.drop run.length)
  | _ => none

/-- Fuelled scan for `TaskRegex.hashTags` matches that start after the first
position: at each character, the `(^|\s)` group requires a whitespace
character, which the match consumes.  Fuel bounds the steps; the string
length suffices since each step consumes at least one character. -/
def scanTagsF : Nat → Str → List Str
  | 0, _ => []
  | _ + 1, [] => []
  | fuel + 1, c :: rest =>
    bif jsIsSpace c then
      match tagBody rest with
      | some (m, rest') => (c :: m) :: scanTagsF fuel rest'
      | none => scanTagsF fuel rest
    else scanTagsF fuel rest

/-- Model of `description.match(TaskRegex.hashTags)` (a global regex): the
list of matches in order.  At position 0 the `(^|\s)` group can also match
the empty start-of-string. -/
def hashTagMatches (s : Str) : List Str :=
  match tagBody s with
  | some (m, rest') => m :: scanTagsF rest'.length rest'
  | none => scanTagsF s.length s

/-- Match `\d{4}-\d{2}-\d{2}` at the start of `s`; on success return the
10-character date and the rest. -/
def dateAt : Str → Option (Str × Str)
  | a :: b :: c :: d :: '-' :: e :: f :: '-' :: g :: h :: rest =>
    if isDigitCh a && isDigitCh b && isDigitCh c && isDigitCh d &&
       isDigitCh e && isDigitCh f && isDigitCh g && isDigitCh h then
      some ([a, b, c, d, '-', e, f, '-', g, h], rest)
    else none
  | _ => none

/-- Model of the date-extraction regexes `<marker>\s?(\d{4}-\d{2}-\d{2})`:
find the leftmost marker character that is followed (after an optional
single whitespace) by a date, and return the captured date.  For the due
date the marker class `[📅🗓️]` contains the code units of both glyphs and
the variation selector U+FE0F; at the level of well-formed text a match can
only begin at `📅`, `🗓` or U+FE0F, which is what `markers` lists. -/
def emojiDateSearch (markers : Str) : Str → Option Str
  | [] => none
  | c :: rest =>
    if markers.contains c then
      match
        (match rest with
         | sp :: r2 => if jsIsSpace sp then dateAt r2 else dateAt rest
         | [] => none) with
      | some (d, _) => some d
      | none => emojiDateSearch markers rest
    else emojiDateSearch markers rest

/-- Model of `TaskRegex.recurrenceRegex` `🔁\s?(.*?)(?=(\s|$))` applied to
`s`: at the first `🔁`, after an optional single whitespace, the lazy
capture extends to the character before the next whitespace (or the end);
the regex always matches once a `🔁` is present. -/
def recurrenceSearch : Str → Option Str
  | [] => none
  | c :: rest =>
    if c == '🔁' then
      some
        (match rest with
         | sp :: r2 =>
           if jsIsSpace sp then r2.takeWhile (fun ch => !jsIsSpace ch)
           else rest.takeWhile (fun ch => !jsIsSpace ch)
         | [] => [])
    else recurrenceSearch rest

/-- Model of `description.match(/⏫⏫|⏫|🔼|🔽|⏬/g)`: the list of priority
marker matches in order; at each position the alternation prefers the
doubled `⏫⏫`, and the scan resumes after each match. -/
def priorityMarkersScan : Str → List Str
  | [] => []
  | [c] =>
    bif c == '⏫' then [lit "⏫"]
    else bif c == '🔼' || c == '🔽' || c == '⏬' then [[c]]
    else []
  | c :: c2 :: r2 =>
    bif c == '⏫' then
      (bif c2 == '⏫' then (lit "⏫⏫") :: priorityMarkersScan r2
       else (lit "⏫") :: priorityMarkersScan (c2 :: r2))
    else bif c == '🔼' || c == '🔽' || c == '⏬' then
      [c] :: priorityMarkersScan (c2 :: r2)
    else priorityMarkersScan (c2 :: r2)

/-- The `if`/`else if` chain of `parseTaskLine` that maps the first priority
match to a priority name. -/
def priorityOfMatch (m : Str) : Option Str :=
  if m == lit "⏫⏫" then some (lit "highest")
  else if m == lit "⏫" then some (lit "high")
  else if m == lit "🔼" then some (lit "medium")
  else if m == lit "🔽" then some (lit "low")
  else if m == lit "⏬" then some (lit "lowest")
  else none

/-- Model of `parseTaskLine(line, filePath, lineNumber)` of `TaskParser.ts`. -/
def parseTaskLine (line : Str) (filePath : Str := []) (lineNumber : Nat := 0) :
    Option Task :=
  match matchTaskRegex line with
  | none => none
  | some m =>
    let statusChar := m.statusChar
    let description := trim m.afterCheckbox
    let tags := ((hashTagMatches description).map trim).filter
      (fun t => decide (0 < t.length))
    let dueMatch := emojiDateSearch (lit "📅🗓️") description
    let scheduledMatch := emojiDateSearch (lit "⏳") description
    let startMatch := emojiDateSearch (lit "🛫") description
    let createdMatch := emojiDateSearch (lit "➕") description
    let recurrenceMatch := recurrenceSearch description
    let priority :=
      match (priorityMarkersScan description).head? with
      | some firstPriority => priorityOfMatch firstPriority
      | none => none
    let id := filePath ++ ':' :: lit (toString lineNumber)
    let status : Status :=
      if statusChar == 'x' || statusChar == 'X' then .complete
      else if statusChar == '-' then .cancelled
      else if statusChar == '/' then .in_progress
      else if statusChar == ' ' || statusChar == '>' || statusChar == '<' then .incomplete
      else .non_task
    some
      { id := id
        description := description
        status := status
        statusSymbol := statusChar
        filePath := filePath
        lineNumber := lineNumber
        tags := tags
        dueDate := dueMatch
        scheduledDate := scheduledMatch
        startDate := startMatch
        createdDate := createdMatch
        priority := priority
        recurrence := recurrenceMatch
        originalMarkdown := line }

/-- Model of `parseTasks(text, filePath)`: split on newlines and parse each
line with its index. -/
def parseTasks (text : Str) (filePath : Str := []) : List Task :=
  ((splitOnSep (lit "\n") text).enum.filterMap
    (fun p => parseTaskLine p.2 filePath p.1))

/-- Model of `taskToString(task)`. -/
def taskToString (task : Task) : Str := task.originalMarkdown

/-- The JS test `o !== undefined && o < b` on an optional string. -/
def optStrLt (o : Option Str) (b : Str) : Bool :=
  match o with
  | some a => ltStr a b
  | none => false

/-- The JS test `o !== undefined && o > b` on an optional string. -/
def optStrGt (o : Option Str) (b : Str) : Bool :=
  match o with
  | some a => ltStr b a
  | none => false

/-- Match `\s+` at the start of `s`: require at least one whitespace
character and consume the maximal run (forced, since the regexes continue
with a non-whitespace requirement). -/
def wsPlus (s : Str) : Option Str :=
  if (s.takeWhile jsIsSpace).isEmpty then none else some (s.dropWhile jsIsSpace)

/-- Match `\d{4}-\d{2}-\d{2}$`: a date making up the entire string. -/
def dateExact (s : Str) : Option Str :=
  match dateAt s with
  | some (d, []) => some d
  | _ => none

/-- Model of `filter.match(/^due\s+(?:on\s+)?(\d{4}-\d{2}-\d{2})$/)`,
returning the captured date.  The optional `on\s+` group is tried first
(the engine is greedy) and abandoned if no date-to-end follows it. -/
def dueOnParse (f : Str) : Option Str :=
  if (lit "due").isPrefixOf f then
    match wsPlus (f.drop 3) with
    | none => none
    | some r1 =>
      let onBranch : Option Str :=
        if (lit "on").isPrefixOf r1 then
          match wsPlus (r1.drop 2) with
          | none => none
          | some r2 => dateExact r2
        else none
      match onBranch with
      | some d => some d
      | none => dateExact r1
  else none

/-- Model of `filter.match(/^due\s+before\s+(\d{4}-\d{2}-\d{2})$/)`. -/
def dueBeforeParse (f : Str) : Option Str :=
  if (lit "due").isPrefixOf f then
    match wsPlus (f.drop 3) with
    | none => none
    | some r1 =>
      if (lit "before").isPrefixOf r1 then
        match wsPlus (r1.drop 6) with
        | none => none
        | some r2 => dateExact r2
      else none
  else none

/-- Model of `filter.match(/^due\s+after\s+(\d{4}-\d{2}-\d{2})$/)`. -/
def dueAfterParse (f : Str) : Option Str :=
  if (lit "due").isPrefixOf f then
    match wsPlus (f.drop 3) with
    | none => none
    | some r1 =>
      if (lit "after").isPrefixOf r1 then
        match wsPlus (r1.drop 5) with
        | none => none
        | some r2 => dateExact r2
      else none
  else none

/-- The due-date block of `applyFilter` (source lines 222-263).  In the
source it is a guarded group of early returns that otherwise falls through,
so it is modelled as an `Option Bool`: `some b` is an early `return b`,
`none` is fall-through to the rules below the block. -/
def dueFilterResult (today : Str) (task : Task) (f : Str) : Option Bool :=
  bif (lit "due").isPrefixOf f || f == lit "has due date" || f == lit "no due date" then
    bif f == lit "due today" then some (task.dueDate == some today)
    else bif f == lit "due before today" then some (optStrLt task.dueDate today)
    else bif f == lit "due after today" then some (optStrGt task.dueDate today)
    else bif f == lit "no due date" then some (task.dueDate == none)
    else bif f == lit "has due date" then some (task.dueDate != none)
    else
      match dueOnParse f with
      | some targetDate => some (task.dueDate == some targetDate)
      | none =>
        match dueBeforeParse f with
        | some targetDate => some (optStrLt task.dueDate targetDate)
        | none =>
          match dueAfterParse f with
          | some targetDate => some (optStrGt task.dueDate targetDate)
          | none => none
  else none

/-- The priority block of `applyFilter` (source lines 312-332); like the
due-date block it falls through when the argument is not one of the six
recognized priority names. -/
def priorityFilterResult (task : Task) (f : Str) : Option Bool :=
  bif (lit "priority is").isPrefixOf f then
    let priority := trim ((splitOnSep (lit "priority is") f).getD 1 [])
    bif priority == lit "highest" then some (task.priority == some (lit "highest"))
    else bif priority == lit "high" then some (task.priority == some (lit "high"))
    else bif priority == lit "medium" then some (task.priority == some (lit "medium"))
    else bif priority == lit "low" then some (task.priority == some (lit "low"))
    else bif priority == lit "lowest" then some (task.priority == some (lit "lowest"))
    else bif priority == lit "none" then some (task.priority == none)
    else none
  else none

/-- The non-recursive tail of `applyFilter`: everything after the five
boolean-connective tests (source lines 206-335), in source order.  `f` is
the already lower-cased and trimmed clause. -/
def applyFilterAtomic (today : Str) (task : Task) (f : Str) : Bool :=
  bif f == lit "done" then task.status == .complete
  else bif f == lit "not done" then
    -- dead code in the source: `not done` is caught by the `not ` rule first
    task.status == .incomplete || task.status == .in_progress
  else bif f == lit "cancelled" then task.status == .cancelled
  else bif f == lit "in progress" then task.status == .in_progress
  else
    match dueFilterResult today task f with
    | some b => b
    | none =>
      bif f == lit "no tags" then task.tags.isEmpty
      else bif f == lit "has tags" then decide (0 < task.tags.length)
      else bif (lit "tag includes ").isPrefixOf f then
        let tagToFind := stripHash (trim ((splitOnSep (lit "tag includes ") f).getD 1 []))
        task.tags.any (fun tag => containsSub (stripHash tag) tagToFind)
      else bif (lit "has tag ").isPrefixOf f then
        let tagToFind := stripHash (trim (f.drop 8))
        task.tags.any (fun tag => stripHash tag == tagToFind)
      else bif (lit "path includes").isPrefixOf f then
        let pathToFind := trim ((splitOnSep (lit "includes") f).getD 1 [])
        containsSub (toLowerCase task.filePath) (toLowerCase pathToFind)
      else bif (lit "path does not include").isPrefixOf f then
        let pathToExclude := trim ((splitOnSep (lit "does not include") f).getD 1 [])
        !containsSub (toLowerCase task.filePath) (toLowerCase pathToExclude)
      else bif (lit "description includes").isPrefixOf f then
        let textToFind := trim ((splitOnSep (lit "includes") f).getD 1 [])
        containsSub (toLowerCase task.description) (toLowerCase textToFind)
      else bif (lit "description does not include").isPrefixOf f then
        let textToExclude := trim ((splitOnSep (lit "does not include") f).getD 1 [])
        !containsSub (toLowerCase task.description) (toLowerCase textToExclude)
      else
        match priorityFilterResult task f with
        | some b => b
        | none =>
          -- fallback: case-insensitive substring test against the description
          containsSub (toLowerCase task.description) f

/-- One step of `applyFilter` (source lines 176-204 plus the atomic tail):
lower-case and trim the clause, try the five boolean-connective rules in
source order, evaluating sub-clauses with `recur`, and otherwise evaluate
the atomic clause. -/
def applyFilterStep (today : Str) (task : Task) (recur : Str → Bool)
    (filter0 : Str) : Bool :=
  let f := trim (toLowerCase filter0)
  bif containsSub f (lit " AND ") then
    ((splitOnSep (lit " AND ") f).all fun part => recur (trim part))
  else bif containsSub f (lit " OR ") then
    ((splitOnSep (lit " OR ") f).any fun part => recur (trim part))
  else bif containsSub f (lit " and ") then
    ((splitOnSep (lit " and ") f).all fun part => recur (trim part))
  else bif containsSub f (lit " or ") then
    ((splitOnSep (lit " or ") f).any fun part => recur (trim part))
  else bif (lit "not ").isPrefixOf f then
    !recur (f.drop 4)
  else applyFilterAtomic today task f

/-- Fuelled worker for `applyFilter`.  Each recursive call receives a
strictly shorter clause (an `and`/`or` part is shorter by the separator, a
`not ` argument is shorter by four characters), so a fuel of one more than
the clause length never runs out; this adequacy is proved below
(`applyFilterF_congr`). -/
def applyFilterF (today : Str) (task : Task) : Nat → Str → Bool
  | 0, _ => false
  | fuel + 1, filter0 =>
    applyFilterStep today task (applyFilterF today task fuel) filter0

/-- Model of `applyFilter(task, filter)` of `TaskParser.ts`, with the
ambient current date made explicit. -/
def applyFilter (today : Str) (task : Task) (filter0 : Str) : Bool :=
  applyFilterF today task (filter0.length + 1) filter0

/-- Model of `parseQuery(queryText)`: trimmed lines, with empty and
`#`-comment lines removed. -/
def parseQuery (queryText : Str) : List Str :=
  ((splitOnSep (lit "\n") queryText).map trim).filter
    (fun l => !l.isEmpty && !(lit "#").isPrefixOf l)

/-- Model of `queryTasks(tasks, queryText)`: keep the tasks on which every
query line's filter holds. -/
def queryTasks (today : Str) (tasks : List Task) (queryText : Str) : List Task :=
  tasks.filter (fun task => (parseQuery queryText).all (applyFilter today task))

/-! Specification-side definitions, written from the specification's words
so that they can be compared with the code-side definitions above. -/

/-- The specification's status table: the status is this function of the
captured checkbox character. -/
def statusOfSymbol (c : Char) : Status :=
  if c == 'x' || c == 'X' then .complete
  else if c == '-' then .cancelled
  else if c == '/' then .in_progress
  else if c == ' ' || c == '>' || c == '<' then .incomplete
  else .non_task

/-- The specification's priority rule: the level of the first (leftmost)
priority marker occurring in the text, the doubled `⏫⏫` counting as its own
marker; `none` when no marker is present. -/
def firstPriorityMarkerLevel : Str → Option Str
  | [] => none
  | [c] =>
    bif c == '⏫' then some (lit "high")
    else bif c == '🔼' then some (lit "medium")
    else bif c == '🔽' then some (lit "low")
    else bif c == '⏬' then some (lit "lowest")
    else none
  | c :: c2 :: r2 =>
    bif c == '⏫' then
      (bif c2 == '⏫' then some (lit "highest") else some (lit "high"))
    else bif c == '🔼' then some (lit "medium")
    else bif c == '🔽' then some (lit "low")
    else bif c == '⏬' then some (lit "lowest")
    else firstPriorityMarkerLevel (c2 :: r2)

/-- Fuelled worker for `tagsSpec`, parallel to `scanTagsF` but collecting
the claim's substrings (no leading whitespace character included). -/
def tagsSpecF : Nat → Str → List Str
  | 0, _ => []
  | _ + 1, [] => []
  | fuel + 1, c :: rest =>
    bif jsIsSpace c then
      match tagBody rest with
      | some (m, rest') => m :: tagsSpecF fuel rest'
      | none => tagsSpecF fuel rest
    else tagsSpecF fuel rest

/-- The tag list as described by claim C7: every substring starting with
`#` immediately preceded by start-of-string or whitespace and running until
a character of the exclusion set or end-of-string, with the leading `#`,
in order of occurrence. -/
def tagsSpec (s : Str) : List Str :=
  match tagBody s with
  | some (m, rest') => m :: tagsSpecF rest'.length rest'
  | none => tagsSpecF s.length s

/-- The due-date clauses on which the due-date block of `applyFilter`
returns early (rather than falling through). -/
def dueClauseRecognized (f : Str) : Bool :=
  f == lit "due today" || f == lit "due before today" || f == lit "due after today" ||
  f == lit "no due date" || f == lit "has due date" ||
  (dueOnParse f).isSome || (dueBeforeParse f).isSome || (dueAfterParse f).isSome

/-- The priority clauses on which the priority block of `applyFilter`
returns early. -/
def priorityClauseRecognized (f : Str) : Bool :=
  (lit "priority is").isPrefixOf f &&
  (let p := trim ((splitOnSep (lit "priority is") f).getD 1 []);
   p == lit "highest" || p == lit "high" || p == lit "medium" ||
   p == lit "low" || p == lit "lowest" || p == lit "none")

/-- A lower-cased, trimmed clause matches a connective or a recognized
predicate of `applyFilter` (exactly the conditions under which the
evaluator returns before reaching the description-substring fallback). -/
def matchesKnownFilter (f : Str) : Bool :=
  containsSub f (lit " AND ") || containsSub f (lit " OR ") ||
  containsSub f (lit " and ") || containsSub f (lit " or ") ||
  (lit "not ").isPrefixOf f ||
  f == lit "done" || f == lit "not done" || f == lit "cancelled" || f == lit "in progress" ||
  dueClauseRecognized f ||
  f == lit "no tags" || f == lit "has tags" ||
  (lit "tag includes ").isPrefixOf f || (lit "has tag ").isPrefixOf f ||
  (lit "path includes").isPrefixOf f || (lit "path does not include").isPrefixOf f ||
  (lit "description includes").isPrefixOf f || (lit "description does not include").isPrefixOf f ||
  priorityClauseRecognized f

/-! Concrete tasks used as witnesses, obtained by parsing concrete lines. -/

/-- A default task record (used only as the `Option.getD` fallback for the
concrete witness tasks below, all of which parse successfully). -/
def defaultTask : Task :=
  ⟨[], [], .incomplete, ' ', [], 0, [], none, none, none, none, none, none, []⟩

/-- The task parsed from a concrete line (at the default provenance). -/
def taskOfLine (line : String) : Task := (parseTaskLine (lit line)).getD defaultTask

/-- A concrete cancelled task, parsed from `- [-] stuff`. -/
def c1Task : Task := taskOfLine "- [-] stuff"

/-- A concrete completed task, parsed from `- [x] basic`. -/
def c2Task : Task := taskOfLine "- [x] basic"

/-- The non-task checkbox line `- [?] x` as parsed. -/
def c3Task : Task := taskOfLine "- [?] x"

/-- The task parsed from `- [ ] a 🔼 b ⏫⏫`, whose description contains a
`🔼` before a `⏫⏫`. -/
def c4Task : Task := taskOfLine "- [ ] a 🔼 b ⏫⏫"

/-- The task parsed from `- [ ] z #a	 x`, whose tag body ends in a tab. -/
def c7BadTask : Task := taskOfLine "- [ ] z #a\t x"

/-- The task parsed from `- [ ] #a #a/b text`. -/
def c7Task : Task := taskOfLine "- [ ] #a #a/b text"

/-- The complete `#work`-tagged task parsed from `- [x] alpha #work`. -/
def c5TaskA : Task := taskOfLine "- [x] alpha #work"

/-- The incomplete task parsed from `- [ ] beta`. -/
def c5TaskB : Task := taskOfLine "- [ ] beta"

/-- The task parsed from `- [ ] urgent report`. -/
def c6Task : Task := taskOfLine "- [ ] urgent report"

/-! Supporting lemmas. -/

theorem length_toLowerCase (s : Str) : (toLowerCase s).length = s.length := by
  simp [toLowerCase]

theorem length_dropWhile_le {α : Type} (p : α → Bool) :
    ∀ l : List α, (l.dropWhile p).length ≤ l.length
  | [] => Nat.le_refl _
  | a :: l => by
    simp only [List.dropWhile]
    cases p a with
    | true => exact Nat.le_trans (length_dropWhile_le p l) (Nat.le_succ _)
    | false => exact Nat.le_refl _

theorem length_trim_le (s : Str) : (trim s).length ≤ s.length := by
  calc (trim s).length
      ≤ (s.dropWhile jsIsSpace).reverse.length := by
        simpa [trim] using length_dropWhile_le jsIsSpace (s.dropWhile jsIsSpace).reverse
    _ ≤ s.length := by
        simpa using length_dropWhile_le jsIsSpace s

theorem length_le_of_isPrefixOf {l s : Str} (h : l.isPrefixOf s = true) :
    l.length ≤ s.length :=
  (List.isPrefixOf_iff_prefix.mp h).length_le

theorem splitF_ne_nil (sep : Str) : ∀ (fuel : Nat) (s : Str), splitF sep fuel s ≠ []
  | 0, [] => by simp [splitF]
  | 0, _ :: _ => by simp [splitF]
  | fuel + 1, [] => by simp [splitF]
  | fuel + 1, c :: rest => by
    rw [splitF]
    split
    · simp
    · cases hs : splitF sep fuel rest <;> simp

theorem splitF_part_length_le (sep : Str) :
    ∀ (fuel : Nat) (s p : Str), s.length ≤ fuel → p ∈ splitF sep fuel s →
      p.length ≤ s.length
  | 0, [], p, _, hp => by
    simp [splitF] at hp
    simp [hp]
  | 0, c :: rest, p, hle, hp => by
    simp at hle
  | fuel + 1, [], p, _, hp => by
    simp [splitF] at hp
    simp [hp]
  | fuel + 1, c :: rest, p, hle, hp => by
    simp only [List.length_cons] at hle
    rw [splitF] at hp
    split at hp
    · rcases List.mem_cons.mp hp with h | h
      · simp [h]
      · have hlen : (List.drop (sep.length - 1) rest).length ≤ fuel := by
          simp only [List.length_drop]
          omega
        have := splitF_part_length_le sep fuel _ p hlen h
        simp only [List.length_drop] at this
        simp only [List.length_cons]
        omega
    · rcases hsp : splitF sep fuel rest with _ | ⟨p0, ps⟩
      · exact absurd hsp (splitF_ne_nil sep fuel rest)
      · rw [hsp] at hp
        have hr : rest.length ≤ fuel := by omega
        rcases List.mem_cons.mp hp with h | h
        · have hp0 : p0 ∈ splitF sep fuel rest := by rw [hsp]; exact List.mem_cons_self _ _
          have := splitF_part_length_le sep fuel rest p0 hr hp0
          simp [h, List.length_cons]
          omega
        · have hpm : p ∈ splitF sep fuel rest := by rw [hsp]; exact List.mem_cons_of_mem _ h
          have := splitF_part_length_le sep fuel rest p hr hpm
          simp only [List.length_cons]
          omega

theorem splitF_part_length_add_le (sep : Str) (hsep : sep ≠ []) :
    ∀ (fuel : Nat) (s p : Str), s.length ≤ fuel → containsSub s sep = true →
      p ∈ splitF sep fuel s → p.length + sep.length ≤ s.length
  | fuel, [], p, _, hc, _ => by
    simp [containsSub, List.isEmpty_iff, hsep] at hc
  | 0, c :: rest, p, hle, _, _ => by simp at hle
  | fuel + 1, c :: rest, p, hle, hc, hp => by
    simp only [List.length_cons] at hle
    rw [splitF] at hp
    split at hp
    next hcond =>
      have hpre : sep.isPrefixOf (c :: rest) = true := by
        cases hpp : sep.isPrefixOf (c :: rest) with
        | true => rfl
        | false => rw [hpp, Bool.and_false] at hcond; exact absurd hcond (by simp)
      have hslen : sep.length ≤ rest.length + 1 := by
        simpa using length_le_of_isPrefixOf hpre
      rcases List.mem_cons.mp hp with h | h
      · simp [h]; omega
      · have hlen : (List.drop (sep.length - 1) rest).length ≤ fuel := by
          simp only [List.length_drop]
          omega
        have := splitF_part_length_le sep fuel _ p hlen h
        simp only [List.length_drop] at this
        simp only [List.length_cons]
        omega
    next hcond =>
      have hpre : sep.isPrefixOf (c :: rest) = false := by
        have hne : sep.isEmpty = false := by
          cases sep with
          | nil => exact absurd rfl hsep
          | cons a l => rfl
        cases hpp : sep.isPrefixOf (c :: rest) with
        | false => rfl
        | true => exact absurd (by simp [hne, hpp]) hcond
      have hcr : containsSub rest sep = true := by
        have := hc
        rw [containsSub, hpre, Bool.false_or] at this
        exact this
      have hr : rest.length ≤ fuel := by omega
      rcases hsp : splitF sep fuel rest with _ | ⟨p0, ps⟩
      · exact absurd hsp (splitF_ne_nil sep fuel rest)
      · rw [hsp] at hp
        rcases List.mem_cons.mp hp with h | h
        · have hp0 : p0 ∈ splitF sep fuel rest := by rw [hsp]; exact List.mem_cons_self _ _
          have := splitF_part_length_add_le sep hsep fuel rest p0 hr hcr hp0
          simp [h, List.length_cons]
          omega
        · have hpm : p ∈ splitF sep fuel rest := by rw [hsp]; exact List.mem_cons_of_mem _ h
          have := splitF_part_length_add_le sep hsep fuel rest p hr hcr hpm
          simp only [List.length_cons]
          omega

theorem splitOnSep_part_lt {sep s p : Str} (hsep : sep ≠ [])
    (hc : containsSub s sep = true) (hp : p ∈ splitOnSep sep s) :
    p.length < s.length := by
  have h := splitF_part_length_add_le sep hsep s.length s p (Nat.le_refl _) hc hp
  have : 0 < sep.length := List.length_pos.mpr hsep
  omega

theorem all_congr_bool {α : Type} {l : List α} {p q : α → Bool}
    (h : ∀ x ∈ l, p x = q x) : l.all p = l.all q := by
  induction l with
  | nil => rfl
  | cons a l ih =>
    simp only [List.all_cons]
    rw [h a (List.mem_cons_self _ _), ih (fun x hx => h x (List.mem_cons_of_mem _ hx))]

theorem any_congr_bool {α : Type} {l : List α} {p q : α → Bool}
    (h : ∀ x ∈ l, p x = q x) : l.any p = l.any q := by
  induction l with
  | nil => rfl
  | cons a l ih =>
    simp only [List.any_cons]
    rw [h a (List.mem_cons_self _ _), ih (fun x hx => h x (List.mem_cons_of_mem _ hx))]

/-- Congruence of one evaluation step in the recursive calls: the step only
calls `recur` on strings strictly shorter than the clause. -/
theorem applyFilterStep_congr (today : Str) (task : Task) (r₁ r₂ : Str → Bool)
    (f0 : Str) (h : ∀ s : Str, s.length < f0.length → r₁ s = r₂ s) :
    applyFilterStep today task r₁ f0 = applyFilterStep today task r₂ f0 := by
  have hflen : (trim (toLowerCase f0)).length ≤ f0.length := by
    have := length_trim_le (toLowerCase f0)
    rw [length_toLowerCase] at this
    exact this
  simp only [applyFilterStep]
  have hpart : ∀ sep : Str, sep ≠ [] →
      containsSub (trim (toLowerCase f0)) sep = true →
      ∀ part ∈ splitOnSep sep (trim (toLowerCase f0)),
        r₁ (trim part) = r₂ (trim part) := by
    intro sep hsep hc part hmem
    apply h
    have h1 := splitOnSep_part_lt hsep hc hmem
    have h2 := length_trim_le part
    omega
  cases h1 : containsSub (trim (toLowerCase f0)) (lit " AND ") with
  | true =>
    simp only [Bool.cond_true]
    exact all_congr_bool (fun part hm => hpart _ (by decide) h1 part hm)
  | false =>
  simp only [Bool.cond_false]
  cases h2 : containsSub (trim (toLowerCase f0)) (lit " OR ") with
  | true =>
    simp only [Bool.cond_true]
    exact any_congr_bool (fun part hm => hpart _ (by decide) h2 part hm)
  | false =>
  simp only [Bool.cond_false]
  cases h3 : containsSub (trim (toLowerCase f0)) (lit " and ") with
  | true =>
    simp only [Bool.cond_true]
    exact all_congr_bool (fun part hm => hpart _ (by decide) h3 part hm)
  | false =>
  simp only [Bool.cond_false]
  cases h4 : containsSub (trim (toLowerCase f0)) (lit " or ") with
  | true =>
    simp only [Bool.cond_true]
    exact any_congr_bool (fun part hm => hpart _ (by decide) h4 part hm)
  | false =>
  simp only [Bool.cond_false]
  cases h5 : (lit "not ").isPrefixOf (trim (toLowerCase f0)) with
  | true =>
    simp only [Bool.cond_true]
    have h4le : 4 ≤ (trim (toLowerCase f0)).length := by
      simpa using length_le_of_isPrefixOf h5
    rw [h _ (by simp only [List.length_drop]; omega)]
  | false =>
  simp only [Bool.cond_false]

/-- Fuel irrelevance: any two sufficient fuels give the same result. -/
theorem applyFilterF_congr (today : Str) (task : Task) :
    ∀ (fuel₁ fuel₂ : Nat) (f0 : Str), f0.length < fuel₁ → f0.length < fuel₂ →
      applyFilterF today task fuel₁ f0 = applyFilterF today task fuel₂ f0
  | 0, _, f0, h1, _ => absurd h1 (Nat.not_lt_zero _)
  | _ + 1, 0, f0, _, h2 => absurd h2 (Nat.not_lt_zero _)
  | k₁ + 1, k₂ + 1, f0, h1, h2 => by
    show applyFilterStep today task (applyFilterF today task k₁) f0 =
      applyFilterStep today task (applyFilterF today task k₂) f0
    apply applyFilterStep_congr
    intro s hs
    exact applyFilterF_congr today task k₁ k₂ s (by omega) (by omega)

/-- A sufficiently fuelled worker computes `applyFilter`. -/
theorem applyFilterF_eq (today : Str) (task : Task) (fuel : Nat) (s : Str)
    (h : s.length < fuel) :
    applyFilterF today task fuel s = applyFilter today task s :=
  applyFilterF_congr today task fuel (s.length + 1) s h (Nat.lt_succ_self _)

/-- Unfold one evaluation step of `applyFilter`. -/
theorem applyFilter_step (today : Str) (task : Task) (f0 : Str) :
    applyFilter today task f0 =
      applyFilterStep today task (applyFilterF today task f0.length) f0 := rfl

/-- Evaluation of the clause `done` on an arbitrary task. -/
theorem applyFilter_done_eval (today : Str) (t : Task) :
    applyFilter today t (lit "done") = (t.status == Status.complete) := by
  rw [applyFilter_step]
  simp only [applyFilterStep]
  rw [show trim (toLowerCase (lit "done")) = lit "done" from by decide]
  rw [show containsSub (lit "done") (lit " AND ") = false from by decide,
      show containsSub (lit "done") (lit " OR ") = false from by decide,
      show containsSub (lit "done") (lit " and ") = false from by decide,
      show containsSub (lit "done") (lit " or ") = false from by decide,
      show (lit "not ").isPrefixOf (lit "done") = false from by decide]
  simp only [Bool.cond_false]
  simp only [applyFilterAtomic]
  rw [show (lit "done" == lit "done") = true from by decide]
  simp only [Bool.cond_true]

/-- Evaluation of the clause `not done` on an arbitrary task: the
`startsWith('not ')` rule fires before the `filter === 'not done'` rule, so
the result is the negation of `done`. -/
theorem applyFilter_notDone_eval (today : Str) (t : Task) :
    applyFilter today t (lit "not done") = !(t.status == Status.complete) := by
  rw [applyFilter_step]
  simp only [applyFilterStep]
  rw [show trim (toLowerCase (lit "not done")) = lit "not done" from by decide]
  rw [show containsSub (lit "not done") (lit " AND ") = false from by decide,
      show containsSub (lit "not done") (lit " OR ") = false from by decide,
      show containsSub (lit "not done") (lit " and ") = false from by decide,
      show containsSub (lit "not done") (lit " or ") = false from by decide,
      show (lit "not ").isPrefixOf (lit "not done") = true from by decide]
  simp only [Bool.cond_false, Bool.cond_true]
  rw [show List.drop 4 (lit "not done") = lit "done" from by decide]
  rw [applyFilterF_eq today t _ _ (by decide)]
  rw [applyFilter_done_eval]

/-- Evaluation of the clause `has tag work` on an arbitrary task. -/
theorem applyFilter_hasTagWork_eval (today : Str) (t : Task) :
    applyFilter today t (lit "has tag work") =
      t.tags.any (fun tag => stripHash tag == lit "work") := by
  rw [applyFilter_step]
  simp only [applyFilterStep]
  rw [show trim (toLowerCase (lit "has tag work")) = lit "has tag work" from by decide]
  rw [show containsSub (lit "has tag work") (lit " AND ") = false from by decide,
      show containsSub (lit "has tag work") (lit " OR ") = false from by decide,
      show containsSub (lit "has tag work") (lit " and ") = false from by decide,
      show containsSub (lit "has tag work") (lit " or ") = false from by decide,
      show (lit "not ").isPrefixOf (lit "has tag work") = false from by decide]
  simp only [Bool.cond_false]
  simp only [applyFilterAtomic]
  rw [show (lit "has tag work" == lit "done") = false from by decide,
      show (lit "has tag work" == lit "not done") = false from by decide,
      show (lit "has tag work" == lit "cancelled") = false from by decide,
      show (lit "has tag work" == lit "in progress") = false from by decide]
  simp only [Bool.cond_false]
  rw [show dueFilterResult today t (lit "has tag work") = none from by
        simp only [dueFilterResult]
        rw [show ((lit "due").isPrefixOf (lit "has tag work") ||
            (lit "has tag work") == lit "has due date" ||
            (lit "has tag work") == lit "no due date") = false from by decide]
        simp only [Bool.cond_false]]
  rw [show (lit "has tag work" == lit "no tags") = false from by decide,
      show (lit "has tag work" == lit "has tags") = false from by decide,
      show (lit "tag includes ").isPrefixOf (lit "has tag work") = false from by decide,
      show (lit "has tag ").isPrefixOf (lit "has tag work") = true from by decide]
  simp only [Bool.cond_false, Bool.cond_true]
  rw [show stripHash (trim (List.drop 8 (lit "has tag work"))) = lit "work" from by decide]

/-! Claim theorems. -/

/-- C1: the claim says `not done` is true exactly on `incomplete` and
`in_progress` tasks, as does the source comment on its own dead
`filter === 'not done'` branch; but the `startsWith('not ')` rule fires
first, so the code computes the negation of `done` instead.  This theorem
evaluates the code: on the cancelled task parsed from `- [-] stuff`,
`applyFilter(task, "not done")` returns `true`, where the claim requires
`false`; in general the result is `status ≠ complete`. -/
theorem c1_not_done_code_behaviour :
    (∀ (today : Str) (t : Task),
      applyFilter today t (lit "not done") = !(t.status == Status.complete)) ∧
    parseTaskLine (lit "- [-] stuff") = some c1Task ∧
    c1Task.status = Status.cancelled ∧
    applyFilter (lit "2025-06-15") c1Task (lit "not done") = true :=
  ⟨applyFilter_notDone_eval, by decide, by decide, by decide⟩

/-- C2 counterexample: on a completed task the clause
`done or cancelled and in progress` evaluates to `false`, while the claim's
reading `done OR (cancelled AND in progress)` evaluates to `true` — the
clause is not split as a single OR into `["a", "b and c"]`. -/
theorem c2_counterexample :
    applyFilter (lit "2025-06-15") c2Task (lit "done or cancelled and in progress") = false ∧
    (applyFilter (lit "2025-06-15") c2Task (lit "done") ||
      (applyFilter (lit "2025-06-15") c2Task (lit "cancelled") &&
        applyFilter (lit "2025-06-15") c2Task (lit "in progress"))) = true := by
  constructor
  · decide
  · decide

/-- C2 amended: the and-check precedes the or-check, so
`"a or b and c"` is split first on AND into `["a or b", "c"]`, the left
part `"a or b"` is then recursively split on OR, and the result equals
`(a OR b) AND c`; stated for every task at the representative instance
`a = done`, `b = cancelled`, `c = in progress`. -/
theorem c2_and_split_precedes_or (today : Str) (t : Task) :
    splitOnSep (lit " and ") (trim (toLowerCase (lit "done or cancelled and in progress"))) =
      [lit "done or cancelled", lit "in progress"] ∧
    applyFilter today t (lit "done or cancelled and in progress") =
      ((applyFilter today t (lit "done") || applyFilter today t (lit "cancelled")) &&
        applyFilter today t (lit "in progress")) := by
  constructor
  · decide
  · rw [applyFilter_step]
    simp only [applyFilterStep]
    rw [show trim (toLowerCase (lit "done or cancelled and in progress")) =
          lit "done or cancelled and in progress" from by decide]
    rw [show containsSub (lit "done or cancelled and in progress") (lit " AND ") = false from by decide,
        show containsSub (lit "done or cancelled and in progress") (lit " OR ") = false from by decide,
        show containsSub (lit "done or cancelled and in progress") (lit " and ") = true from by decide]
    simp only [Bool.cond_false, Bool.cond_true]
    rw [show splitOnSep (lit " and ") (lit "done or cancelled and in progress") =
          [lit "done or cancelled", lit "in progress"] from by decide]
    simp only [List.all_cons, List.all_nil]
    rw [show trim (lit "done or cancelled") = lit "done or cancelled" from by decide,
        show trim (lit "in progress") = lit "in progress" from by decide]
    rw [applyFilterF_eq today t _ _ (by decide),
        applyFilterF_eq today t _ _ (by decide)]
    rw [applyFilter_step today t (lit "done or cancelled")]
    simp only [applyFilterStep]
    rw [show trim (toLowerCase (lit "done or cancelled")) = lit "done or cancelled" from by decide]
    rw [show containsSub (lit "done or cancelled") (lit " AND ") = false from by decide,
        show containsSub (lit "done or cancelled") (lit " OR ") = false from by decide,
        show containsSub (lit "done or cancelled") (lit " and ") = false from by decide,
        show containsSub (lit "done or cancelled") (lit " or ") = true from by decide]
    simp only [Bool.cond_false, Bool.cond_true]
    rw [show splitOnSep (lit " or ") (lit "done or cancelled") = [lit "done", lit "cancelled"] from by decide]
    simp only [List.any_cons, List.any_nil]
    rw [show trim (lit "done") = lit "done" from by decide,
        show trim (lit "cancelled") = lit "cancelled" from by decide]
    rw [applyFilterF_eq today t _ _ (by decide),
        applyFilterF_eq today t _ _ (by decide)]
    simp [Bool.and_true, Bool.or_false]

/-- C3: for every line, a task is produced exactly when the task regex
matches (a recognized line is never dropped), and the status of a produced
task is the pure function `statusOfSymbol` of its captured checkbox
character. -/
theorem c3_status_pure_function_of_symbol (line fp : Str) (n : Nat) :
    ((parseTaskLine line fp n).isSome = (matchTaskRegex line).isSome) ∧
    (∀ t : Task, parseTaskLine line fp n = some t →
      t.status = statusOfSymbol t.statusSymbol) := by
  unfold parseTaskLine
  cases hm : matchTaskRegex line with
  | none => exact ⟨rfl, fun t ht => by simp at ht⟩
  | some m =>
    refine ⟨rfl, fun t ht => ?_⟩
    simp only [Option.some.injEq] at ht
    subst ht
    rfl

/-- Witness for C3 at the line `- [?] x`, whose checkbox character `?` maps
to `non_task` while the line is still returned as a task. -/
theorem c3_witness :
    ((parseTaskLine (lit "- [?] x") [] 0).isSome = (matchTaskRegex (lit "- [?] x")).isSome) ∧
    c3Task.status = statusOfSymbol c3Task.statusSymbol :=
  ⟨(c3_status_pure_function_of_symbol (lit "- [?] x") [] 0).1,
   (c3_status_pure_function_of_symbol (lit "- [?] x") [] 0).2 c3Task (by decide)⟩

/-- C8: a line on which the task regex fails produces no task: the parser
returns `none` (a non-match, not an error). -/
theorem c8_no_shape_no_task (line fp : Str) (n : Nat)
    (h : matchTaskRegex line = none) : parseTaskLine line fp n = none := by
  unfold parseTaskLine
  rw [h]

/-- Witness for C8 at the plain line `hello world`. -/
theorem c8_witness :
    matchTaskRegex (lit "hello world") = none ∧
    parseTaskLine (lit "hello world") [] 0 = none :=
  ⟨by decide, c8_no_shape_no_task (lit "hello world") [] 0 (by decide)⟩

/-- C9: round-trip: a parsed task stores the exact input line in
`originalMarkdown`, and `taskToString` returns that line. -/
theorem c9_roundtrip (line fp : Str) (n : Nat) (t : Task)
    (h : parseTaskLine line fp n = some t) :
    t.originalMarkdown = line ∧ taskToString t = line := by
  unfold parseTaskLine at h
  cases hm : matchTaskRegex line with
  | none => rw [hm] at h; simp at h
  | some m =>
    rw [hm] at h
    simp only [Option.some.injEq] at h
    subst h
    exact ⟨rfl, rfl⟩

/-- Witness for C9 at the line `- [x] basic`. -/
theorem c9_witness :
    c2Task.originalMarkdown = lit "- [x] basic" ∧
    taskToString c2Task = lit "- [x] basic" :=
  c9_roundtrip (lit "- [x] basic") [] 0 c2Task (by decide)

/-- C10: the query result is an order-preserving sublist of the input list
(hence every returned task is an unmodified element of the input, appearing
no more often than there). -/
theorem c10_query_result_sublist (today : Str) (tasks : List Task) (qt : Str) :
    (queryTasks today tasks qt).Sublist tasks ∧
    ∀ t : Task, (queryTasks today tasks qt).count t ≤ tasks.count t := by
  constructor
  · exact List.filter_sublist tasks
  · intro t
    exact (List.filter_sublist tasks).count_le t

/-- The head of the global priority-marker scan, mapped through the
name table, is exactly the level of the leftmost marker. -/
theorem scan_head_priority (s : Str) :
    (match (priorityMarkersScan s).head? with
      | some firstPriority => priorityOfMatch firstPriority
      | none => none) = firstPriorityMarkerLevel s := by
  induction s using priorityMarkersScan.induct with
  | case1 => rfl
  | case2 c =>
    simp only [priorityMarkersScan, firstPriorityMarkerLevel]
    cases h1 : c == '⏫' with
    | true =>
      rw [eq_of_beq h1]
      decide
    | false =>
      simp only [h1, Bool.cond_false]
      cases h2 : (c == '🔼' || c == '🔽' || c == '⏬') with
      | true =>
        simp only [h2, Bool.cond_true]
        rcases Bool.or_eq_true_iff.mp h2 with h | h
        · rcases Bool.or_eq_true_iff.mp h with h | h
          · rw [eq_of_beq h]; decide
          · rw [eq_of_beq h]; decide
        · rw [eq_of_beq h]; decide
      | false =>
        simp only [h2, Bool.cond_false]
        rcases Bool.or_eq_false_iff.mp h2 with ⟨h3, h4⟩
        rcases Bool.or_eq_false_iff.mp h3 with ⟨h5, h6⟩
        simp [h5, h6, h4]
  | case3 c c2 r2 ih1 ih2 =>
    simp only [priorityMarkersScan, firstPriorityMarkerLevel]
    cases h1 : c == '⏫' with
    | true =>
      simp only [h1, Bool.cond_true]
      cases h2 : c2 == '⏫' with
      | true =>
        simp only [h2, Bool.cond_true, List.head?_cons]
        decide
      | false =>
        simp only [h2, Bool.cond_false, List.head?_cons]
        decide
    | false =>
      simp only [h1, Bool.cond_false]
      cases h2 : (c == '🔼' || c == '🔽' || c == '⏬') with
      | true =>
        simp only [h2, Bool.cond_true, List.head?_cons]
        rcases Bool.or_eq_true_iff.mp h2 with h | h
        · rcases Bool.or_eq_true_iff.mp h with h | h
          · rw [eq_of_beq h,
                show priorityOfMatch [('🔼' : Char)] = some (lit "medium") from by decide,
                show (('🔼' : Char) == '🔼') = true from by decide]
            simp only [Bool.cond_true]
          · rw [eq_of_beq h,
                show priorityOfMatch [('🔽' : Char)] = some (lit "low") from by decide,
                show (('🔽' : Char) == '🔼') = false from by decide,
                show (('🔽' : Char) == '🔽') = true from by decide]
            simp only [Bool.cond_false, Bool.cond_true]
        · rw [eq_of_beq h,
              show priorityOfMatch [('⏬' : Char)] = some (lit "lowest") from by decide,
              show (('⏬' : Char) == '🔼') = false from by decide,
              show (('⏬' : Char) == '🔽') = false from by decide,
              show (('⏬' : Char) == '⏬') = true from by decide]
          simp only [Bool.cond_false, Bool.cond_true]
      | false =>
        simp only [h2, Bool.cond_false]
        rcases Bool.or_eq_false_iff.mp h2 with ⟨h3, h4⟩
        rcases Bool.or_eq_false_iff.mp h3 with ⟨h5, h6⟩
        simp only [h5, h6, h4, Bool.cond_false]
        exact ih2

/-- C4: the priority of a parsed task is the level of the first (leftmost)
priority marker occurring in its description (`none` when no marker is
present), not the structurally highest-ranked one. -/
theorem c4_first_marker_wins (line fp : Str) (n : Nat) (t : Task)
    (h : parseTaskLine line fp n = some t) :
    t.priority = firstPriorityMarkerLevel t.description := by
  unfold parseTaskLine at h
  cases hm : matchTaskRegex line with
  | none => rw [hm] at h; simp at h
  | some m =>
    rw [hm] at h
    simp only [Option.some.injEq] at h
    subst h
    exact scan_head_priority (trim m.afterCheckbox)

/-- Witness for C4: with `🔼` occurring before `⏫⏫`, the parsed priority is
`medium` (the first marker), not `highest` (the most severe). -/
theorem c4_witness :
    c4Task.priority = firstPriorityMarkerLevel c4Task.description ∧
    c4Task.priority = some (lit "medium") :=
  ⟨c4_first_marker_wins (lit "- [ ] a 🔼 b ⏫⏫") [] 0 c4Task (by decide), by decide⟩

/-! Lemmas for C7: the extracted tags are the specification's substrings,
each additionally trimmed of its whitespace. -/

theorem tagBody_shape {s m r : Str} (h : tagBody s = some (m, r)) :
    ∃ run, m = '#' :: run := by
  unfold tagBody at h
  split at h
  next s' rest =>
    simp only [] at h
    by_cases hrun : (rest.takeWhile (fun c => !isExcludedTagChar c)).isEmpty = true
    · rw [if_pos hrun] at h
      exact absurd h (by simp)
    · rw [if_neg hrun] at h
      simp only [Option.some.injEq, Prod.mk.injEq] at h
      exact ⟨_, h.1.symm⟩
  next => exact absurd h (by simp)

theorem trim_cons_space {c : Char} (h : jsIsSpace c = true) (m : Str) :
    trim (c :: m) = trim m := by
  simp [trim, List.dropWhile_cons, h]

theorem trim_hash_pos (run : Str) : 0 < (trim ('#' :: run)).length := by
  have hh : jsIsSpace '#' = false := by decide
  simp only [trim, List.dropWhile_cons, hh]
  simp only [Bool.false_eq_true, if_false, List.length_reverse]
  rw [List.length_pos]
  intro hnil
  have hall := List.dropWhile_eq_nil_iff.mp hnil '#' (by simp)
  rw [hh] at hall
  exact absurd hall (by simp)

theorem scanTags_spec (fuel : Nat) (s : Str) :
    ((scanTagsF fuel s).map trim).filter (fun t => decide (0 < t.length)) =
      (tagsSpecF fuel s).map trim := by
  induction fuel generalizing s with
  | zero => rfl
  | succ k ih =>
    cases s with
    | nil => rfl
    | cons c rest =>
      simp only [scanTagsF, tagsSpecF]
      cases hsp : jsIsSpace c with
      | false => simp only [Bool.cond_false]; exact ih rest
      | true =>
        simp only [Bool.cond_true]
        cases htb : tagBody rest with
        | none => exact ih rest
        | some pr =>
          obtain ⟨m, rest'⟩ := pr
          obtain ⟨run, hm⟩ := tagBody_shape htb
          subst hm
          simp only [List.map_cons, List.filter_cons]
          rw [trim_cons_space hsp]
          rw [show (decide (0 < (trim ('#' :: run)).length)) = true from
                decide_eq_true (trim_hash_pos run)]
          simp only [if_true]
          rw [ih rest']

theorem tags_code_eq_spec (s : Str) :
    ((hashTagMatches s).map trim).filter (fun t => decide (0 < t.length)) =
      (tagsSpec s).map trim := by
  unfold hashTagMatches tagsSpec
  cases htb : tagBody s with
  | none => exact scanTags_spec s.length s
  | some pr =>
    obtain ⟨m, rest'⟩ := pr
    obtain ⟨run, hm⟩ := tagBody_shape htb
    subst hm
    simp only [List.map_cons, List.filter_cons]
    rw [show (decide (0 < (trim ('#' :: run)).length)) = true from
          decide_eq_true (trim_hash_pos run)]
    simp only [if_true]
    rw [scanTags_spec]

/-- C7 counterexample: the claim says a tag runs from `#` to the first
excluded character, so the description `z #a	 x` (tab between `a` and the
space) would yield the tag `#a	`; the code trims the match, yielding `#a`. -/
theorem c7_counterexample :
    parseTaskLine (lit "- [ ] z #a\t x") = some c7BadTask ∧
    c7BadTask.description = lit "z #a\t x" ∧
    c7BadTask.tags = [lit "#a"] ∧
    tagsSpec c7BadTask.description = [lit "#a\t"] ∧
    c7BadTask.tags ≠ tagsSpec c7BadTask.description := by decide

/-- C7 amended: the tags of a parsed task are the claim's substrings (from
a `#` preceded by start or whitespace up to the first excluded character or
the end, in order, duplicates preserved), each additionally trimmed of
leading and trailing whitespace. -/
theorem c7_tags_are_trimmed_spec_tags (line fp : Str) (n : Nat) (t : Task)
    (h : parseTaskLine line fp n = some t) :
    t.tags = (tagsSpec t.description).map trim := by
  unfold parseTaskLine at h
  cases hm : matchTaskRegex line with
  | none => rw [hm] at h; simp at h
  | some m =>
    rw [hm] at h
    simp only [Option.some.injEq] at h
    subst h
    exact tags_code_eq_spec (trim m.afterCheckbox)

/-- Witness for C7: the description `#a #a/b text` yields the tags
`["#a", "#a/b"]` in order. -/
theorem c7_witness :
    c7Task.tags = (tagsSpec c7Task.description).map trim ∧
    c7Task.tags = [lit "#a", lit "#a/b"] :=
  ⟨c7_tags_are_trimmed_spec_tags (lit "- [ ] #a #a/b text") [] 0 c7Task (by decide),
   by decide⟩

/-! Lemmas for C5. -/

theorem anyStripHash (l : List Str) (hl : ∀ g ∈ l, (lit "#").isPrefixOf g = true) :
    l.any (fun tag => stripHash tag == lit "work") = decide ((lit "#work") ∈ l) := by
  induction l with
  | nil => rfl
  | cons g rest ih =>
    simp only [List.any_cons]
    have hg := hl g (List.mem_cons_self _ _)
    obtain ⟨g', rfl⟩ : ∃ g', g = '#' :: g' := by
      cases g with
      | nil => exact absurd hg (by decide)
      | cons a as =>
        have ha : ('#' == a) = true := by
          rw [show lit "#" = ['#'] from rfl] at hg
          simp only [List.isPrefixOf, Bool.and_true] at hg
          simpa using hg
        exact ⟨as, by rw [eq_of_beq ha]⟩
    rw [show stripHash ('#' :: g') = g' from rfl]
    rw [ih (fun x hx => hl x (List.mem_cons_of_mem _ hx))]
    have hmem : decide ((lit "#work") ∈ ('#' :: g') :: rest) =
        (decide ((lit "#work") = '#' :: g') || decide ((lit "#work") ∈ rest)) := by
      by_cases h1 : (lit "#work") = '#' :: g' <;> by_cases h2 : (lit "#work") ∈ rest <;>
        simp [h1, h2, List.mem_cons]
    rw [hmem]
    congr 1
    rw [show lit "#work" = '#' :: lit "work" from rfl]
    by_cases h : g' = lit "work"
    · subst h
      simp
    · simp [h, Ne.symm h]

/-- C5: a task passes the query exactly when every trimmed, non-empty,
non-`#`-prefixed line of the query holds of it (a flat conjunction across
lines), and in particular `done\nhas tag work` selects exactly the complete
tasks whose tags contain `#work` (for task lists whose tags carry their
leading `#`, as all parsed tasks do). -/
theorem c5_query_flat_conjunction (today : Str) (tasks : List Task) (qt : Str) :
    (∀ t : Task, t ∈ queryTasks today tasks qt ↔
      (t ∈ tasks ∧ ∀ l ∈ ((splitOnSep (lit "\n") qt).map trim),
        l ≠ [] → (lit "#").isPrefixOf l = false → applyFilter today t l = true)) ∧
    ((∀ t ∈ tasks, ∀ g ∈ t.tags, (lit "#").isPrefixOf g = true) →
      queryTasks today tasks (lit "done\nhas tag work") =
        tasks.filter (fun t => t.status == Status.complete &&
          decide ((lit "#work") ∈ t.tags))) := by
  constructor
  · intro t
    unfold queryTasks
    rw [List.mem_filter]
    apply and_congr_right
    intro _
    rw [List.all_eq_true]
    unfold parseQuery
    constructor
    · intro hall l hl hne hpre
      apply hall
      rw [List.mem_filter]
      refine ⟨hl, ?_⟩
      simp only [Bool.and_eq_true, Bool.not_eq_true']
      exact ⟨by simpa [List.isEmpty_iff] using hne, hpre⟩
    · intro himp l hl
      rw [List.mem_filter] at hl
      obtain ⟨hl1, hl2⟩ := hl
      simp only [Bool.and_eq_true, Bool.not_eq_true'] at hl2
      exact himp l hl1 (by simpa [List.isEmpty_iff] using hl2.1) hl2.2
  · intro htags
    unfold queryTasks
    apply List.filter_congr
    intro t ht
    rw [show parseQuery (lit "done\nhas tag work") = [lit "done", lit "has tag work"]
          from by decide]
    simp only [List.all_cons, List.all_nil]
    rw [applyFilter_done_eval, applyFilter_hasTagWork_eval, Bool.and_true]
    congr 1
    exact anyStripHash t.tags (htags t ht)

/-- Witness for C5 on a concrete two-task list. -/
theorem c5_witness :
    queryTasks (lit "2025-06-15") [c5TaskA, c5TaskB] (lit "done\nhas tag work") =
      List.filter
        (fun t => t.status == Status.complete && decide ((lit "#work") ∈ t.tags))
        [c5TaskA, c5TaskB] :=
  (c5_query_flat_conjunction (lit "2025-06-15") [c5TaskA, c5TaskB]
    (lit "done\nhas tag work")).2 (by decide)

/-! Lemmas for C6. -/

theorem isSome_false_eq_none {α : Type} {o : Option α} (h : o.isSome = false) :
    o = none := by
  cases o with
  | none => rfl
  | some a => simp at h

theorem dueFilterResult_none (today : Str) (task : Task) (f : Str)
    (h : dueClauseRecognized f = false) : dueFilterResult today task f = none := by
  simp only [dueClauseRecognized, Bool.or_eq_false_iff] at h
  obtain ⟨⟨⟨⟨⟨⟨⟨h1, h2⟩, h3⟩, h4⟩, h5⟩, h6⟩, h7⟩, h8⟩ := h
  simp only [dueFilterResult]
  cases hguard : ((lit "due").isPrefixOf f || f == lit "has due date" ||
      f == lit "no due date") with
  | false => simp only [Bool.cond_false]
  | true =>
    simp only [Bool.cond_true, h1, h2, h3, h4, h5, Bool.cond_false]
    rw [isSome_false_eq_none h6, isSome_false_eq_none h7, isSome_false_eq_none h8]

theorem priorityFilterResult_none (task : Task) (f : Str)
    (h : priorityClauseRecognized f = false) : priorityFilterResult task f = none := by
  simp only [priorityFilterResult]
  cases hpre : (lit "priority is").isPrefixOf f with
  | false => simp only [Bool.cond_false]
  | true =>
    simp only [priorityClauseRecognized, hpre, Bool.true_and, Bool.or_eq_false_iff] at h
    obtain ⟨⟨⟨⟨⟨h1, h2⟩, h3⟩, h4⟩, h5⟩, h6⟩ := h
    simp only [Bool.cond_true, h1, h2, h3, h4, h5, h6, Bool.cond_false]

/-- C6: the clause evaluator is total (it always returns a boolean), and on
a clause whose lower-cased, trimmed form matches no connective and no
recognized predicate, the result is the case-insensitive substring test of
that form against the task's description. -/
theorem c6_total_and_fallback (today : Str) (task : Task) (clause : Str) :
    (applyFilter today task clause = true ∨ applyFilter today task clause = false) ∧
    (matchesKnownFilter (trim (toLowerCase clause)) = false →
      applyFilter today task clause =
        containsSub (toLowerCase task.description) (trim (toLowerCase clause))) := by
  constructor
  · cases applyFilter today task clause with
    | true => exact Or.inl rfl
    | false => exact Or.inr rfl
  · intro h
    simp only [matchesKnownFilter, Bool.or_eq_false_iff] at h
    obtain ⟨⟨⟨⟨⟨⟨⟨⟨⟨⟨⟨⟨⟨⟨⟨⟨⟨⟨h1, h2⟩, h3⟩, h4⟩, h5⟩, h6⟩, h7⟩, h8⟩, h9⟩,
      h10⟩, h11⟩, h12⟩, h13⟩, h14⟩, h15⟩, h16⟩, h17⟩, h18⟩, h19⟩ := h
    rw [applyFilter_step]
    simp only [applyFilterStep]
    rw [h1, h2, h3, h4, h5]
    simp only [Bool.cond_false]
    simp only [applyFilterAtomic]
    rw [h6, h7, h8, h9]
    simp only [Bool.cond_false]
    rw [dueFilterResult_none today task _ h10]
    rw [h11, h12, h13, h14, h15, h16, h17, h18]
    simp only [Bool.cond_false]
    rw [priorityFilterResult_none task _ h19]

/-- Witness for C6 at the unrecognized clause `urgent`. -/
theorem c6_witness :
    matchesKnownFilter (trim (toLowerCase (lit "urgent"))) = false ∧
    applyFilter (lit "2025-06-15") c6Task (lit "urgent") =
      containsSub (toLowerCase c6Task.description) (trim (toLowerCase (lit "urgent"))) :=
  ⟨by decide,
   (c6_total_and_fallback (lit "2025-06-15") c6Task (lit "urgent")).2 (by decide)⟩

end ObsidianTasks
